import Mathlib

/-!
Shallow embedding of the go-expectimax search engine core
(node.go, expectimax.go, explorenodeworker.go).

Modelling conventions:
* Go `float64` values are modelled as rationals (`ℚ`); the claims under
  study are algebraic and every computation on the modelled paths is
  NaN-free over `ℚ`.
* Move identifiers (`interface{}` keys) are modelled as `Nat`.
* Go maps are modelled as association lists `List (Nat × α)`; a map read
  returns the zero value of the element type when the key is absent,
  exactly as in Go, and map assignment replaces in place or appends.
* Node pointers are modelled by giving every node an abstract identity
  (`selfId : Nat`); a pointer field holds `Option Nat`.
* The entries of a node's `children` map are summarised by `ChildView`:
  the fields of `expectimaxNode` that the functions under study read from
  or write to a child.  Reference-count side effects on *other* nodes
  (the increment/decrement bracket at the top of each method, which is
  net-neutral on an unretired node) are modelled by the
  `markedForDeletion` guard that makes each method a no-op on a retired
  node, as the early `return` in the source does.
-/

namespace GoExpectimax

/-- Exploration status of a node (node.go lines 12-20). -/
inductive ExplorationStatus where
  | Unexplored
  | WaitingForExploration
  | Exploring
  | Explored
  | Archived
  deriving DecidableEq

/-- Go map read for pointer-valued maps: the binding of the key, if any. -/
def mapLookup {α : Type} : List (Nat × α) → Nat → Option α
  | [], _ => none
  | (k₁, v₁) :: rest, k => if k₁ = k then some v₁ else mapLookup rest k

/-- Go map read for float-valued maps: absent keys read as the zero value,
as in `node.childLikelihood[childMove]`. -/
def lookupD : List (Nat × ℚ) → Nat → ℚ
  | [], _ => 0
  | (k₁, v₁) :: rest, k => if k₁ = k then v₁ else lookupD rest k

/-- Go map assignment `m[k] = v`: replace the binding in place, or append. -/
def mapSet {α : Type} (l : List (Nat × α)) (k : Nat) (v : α) : List (Nat × α) :=
  match l with
  | [] => [(k, v)]
  | (k₁, v₁) :: rest => if k₁ = k then (k, v) :: rest else (k₁, v₁) :: mapSet rest k v

/-- Keys of a modelled Go map. -/
def keysOf {α : Type} (l : List (Nat × α)) : List Nat := l.map Prod.fst

/-- Summary of a child entry of the `children` map: the fields of
`expectimaxNode` that a parent's methods read from the child, or that
`Explore` writes when creating it. -/
structure ChildView where
  selfId : Nat
  lastMove : Nat
  heuristic : ℚ
  value : ℚ
  explorationStatus : ExplorationStatus
  parentId : Option Nat
  mostLikelyUnexploredDescendent : Option Nat
  mostLikelyUnexploredDescendentLikelihood : ℚ
  deriving DecidableEq

/-- The node state (struct `expectimaxNode`, node.go lines 22-38).  The
`game` snapshot and the raw parent pointer are kept abstract; `GetGame`
results enter the model as an `Option` parameter where needed. -/
structure ExpNode where
  selfId : Nat
  explorationStatus : ExplorationStatus
  heuristic : ℚ
  value : ℚ
  children : List (Nat × ChildView)
  childLikelihood : List (Nat × ℚ)
  childExploreProbability : List (Nat × ℚ)
  mostLikelyUnexploredDescendent : Option Nat
  mostLikelyUnexploredDescendentLikelihood : ℚ
  descendentCount : Nat
  averageDepth : ℚ
  referenceCount : Int
  markedForDeletion : Bool
  deriving DecidableEq

/-- The `reset` method (node.go lines 61-98): all fields return to their
pool defaults; the frontier cache points at the node itself with
likelihood 1. -/
def resetNode (n : ExpNode) : ExpNode :=
  { selfId := n.selfId
    explorationStatus := .Unexplored
    heuristic := 0
    value := 0
    children := []
    childLikelihood := []
    childExploreProbability := []
    mostLikelyUnexploredDescendent := some n.selfId
    mostLikelyUnexploredDescendentLikelihood := 1
    descendentCount := 0
    averageDepth := 0
    referenceCount := 0
    markedForDeletion := false }

/-- The `incrementReference` method (node.go lines 100-107): fails exactly
when the node is already marked for deletion, otherwise bumps the count. -/
def incrementReference (n : ExpNode) : Bool × ExpNode :=
  if n.markedForDeletion then (false, n)
  else (true, { n with referenceCount := n.referenceCount + 1 })

/-- The `decrementReference` method (node.go lines 109-115): decrement;
when the count reaches zero on a node marked for deletion, reset it and
return it to the pool.  The second component records the pool return. -/
def decrementReference (n : ExpNode) : ExpNode × Bool :=
  if n.referenceCount - 1 = 0 ∧ n.markedForDeletion = true then (resetNode n, true)
  else ({ n with referenceCount := n.referenceCount - 1 }, false)

/-- The `getChildValue` accessor (node.go lines 359-366): a missing move
reads as 0.0, a present move reads as the child's value. -/
def getChildValue (children : List (Nat × ChildView)) (childMove : Nat) : ℚ :=
  match mapLookup children childMove with
  | none => 0
  | some childNode => childNode.value

/-- Eligibility of a child in the frontier scan: the negation of the
`continue` condition at node.go line 269 — the child's cache is non-nil
and the child's status is `Unexplored` or `Archived`. -/
def childEligible (c : ChildView) : Bool :=
  c.mostLikelyUnexploredDescendent.isSome &&
    (c.explorationStatus == .Unexplored || c.explorationStatus == .Archived)

/-- One iteration of the children loop of
`updateMostLikelyUnexploredDescendent` (node.go lines 268-279): an
eligible child whose path product strictly exceeds the incumbent
likelihood replaces it; otherwise the incumbent stays. -/
def mludStep (cep : List (Nat × ℚ)) (best : Option Nat × ℚ) (p : Nat × ChildView) :
    Option Nat × ℚ :=
  if childEligible p.2 then
    let exploreChildLikelihood := p.2.mostLikelyUnexploredDescendentLikelihood * lookupD cep p.1
    if best.2 < exploreChildLikelihood then (p.2.mostLikelyUnexploredDescendent, exploreChildLikelihood)
    else best
  else best

/-- The switch of `updateMostLikelyUnexploredDescendent` (node.go lines
257-280), computing the new frontier cache of a node. -/
def computeMostLikelyUnexploredDescendent (n : ExpNode) : Option Nat × ℚ :=
  match n.explorationStatus with
  | .Unexplored => (some n.selfId, 1)
  | .WaitingForExploration => (none, 0)
  | .Exploring => (none, 0)
  | .Explored => n.children.foldl (mludStep n.childExploreProbability) (none, 0)
  | .Archived => n.children.foldl (mludStep n.childExploreProbability) (none, 0)

/-- The `updateMostLikelyUnexploredDescendent` method (node.go lines
248-298) as it acts on the node's own state: compute the new cache and
store it.  (Storing an unchanged cache is a no-op, so the guard at line
282 does not change the resulting state; the reference-count transfer on
the cached pointer and the recursion into the parent act on other
nodes.) -/
def updateMostLikelyUnexploredDescendent (n : ExpNode) : ExpNode :=
  if n.markedForDeletion then n
  else
    let r := computeMostLikelyUnexploredDescendent n
    { n with mostLikelyUnexploredDescendent := r.1
             mostLikelyUnexploredDescendentLikelihood := r.2 }

/-- The `setWaitingForExploration` method (node.go lines 300-308). -/
def setWaitingForExploration (n : ExpNode) : ExpNode :=
  if n.markedForDeletion then n
  else updateMostLikelyUnexploredDescendent
    { n with explorationStatus := .WaitingForExploration }

/-- The child-explore-probability loop of `calculateChildLikelihood`
(node.go lines 376-378), with the divisor `K` (the length of the whole
`childLikelihood` map, constant throughout the loop) made explicit. -/
def updateExploreProbabilityAux (K : ℚ) (cep : List (Nat × ℚ)) (entries : List (Nat × ℚ)) :
    List (Nat × ℚ) :=
  entries.foldl (fun acc p => mapSet acc p.1 (1 / 10 / K + 9 / 10 * p.2)) cep

/-- Writes `childExploreProbability[move] = 0.1/len(childLikelihood) +
0.9*likelihood` for every entry of `childLikelihood` (node.go lines
376-378). -/
def updateExploreProbability (cep cl : List (Nat × ℚ)) : List (Nat × ℚ) :=
  updateExploreProbabilityAux (cl.length : ℚ) cep cl

/-- The value computation of `calculateChildLikelihood` (node.go lines
380-387): a leaf takes its heuristic, an internal node takes
Σ childLikelihood[m] * child.value. -/
def calcValue (heuristic : ℚ) (children : List (Nat × ChildView)) (cl : List (Nat × ℚ)) : ℚ :=
  if children = [] then heuristic
  else (children.map (fun p => lookupD cl p.1 * p.2.value)).sum

/-- The body of `calculateChildLikelihood` acting on the node's own state
(node.go lines 374-402).  The external likelihood function writes into
the `childLikelihood` map; `clOut` is the map it leaves behind.  Over ℚ
the NaN check at lines 389-392 never fires. -/
def calculateChildLikelihoodCore (clOut : List (Nat × ℚ)) (n : ExpNode) : ExpNode :=
  { n with childLikelihood := clOut
           childExploreProbability := updateExploreProbability n.childExploreProbability clOut
           value := calcValue n.heuristic n.children clOut }

/-- The `calculateChildLikelihood` method on a single node, as invoked
with `recursive = false` (node.go lines 368-403): guard, recompute
likelihood-derived maps and the value, refresh the node's own frontier
cache.  The recursive variant, which walks the parent chain, is modelled
by `propagateUp` below. -/
def calculateChildLikelihood (clOut : List (Nat × ℚ)) (n : ExpNode) : ExpNode :=
  if n.markedForDeletion then n
  else updateMostLikelyUnexploredDescendent (calculateChildLikelihoodCore clOut n)

/-- The `processExploredNode` method as it acts on the handed-back node
itself (node.go lines 405-422): archive it unconditionally.  The calls
into the parent (`calculateChildLikelihood(recursive = true)`,
`updateAverageDepth`, `addDescendents`) act on other nodes. -/
def processExploredNode (n : ExpNode) : ExpNode :=
  if n.markedForDeletion then n
  else { n with explorationStatus := .Archived }

/-- The explored-node arm of the coordinator select (expectimax.go lines
133-136): process the node and release the reference taken when it was
handed out.  The Boolean records whether this arm calls `log.Fatal`; the
source contains no such call on this path. -/
def handleExploredNode (n : ExpNode) : ExpNode × Bool :=
  ((decrementReference (processExploredNode n)).1, false)

/-- Outcome of the frontier-request arm of the coordinator select. -/
inductive FrontierOutcome where
  | sent (node : ExpNode)
  | requeued
  | dropped
  | fatal
  deriving DecidableEq

/-- The frontier-request arm of the coordinator select (expectimax.go
lines 169-188).  `frontier` is `rootNode.mostLikelyUnexploredDescendent`.
When it is non-nil and the budget is not reached: a failed reference
increment executes `continue`, which discards the worker's reply channel
(`dropped`); a frontier node that is not `Unexplored` is `log.Fatal`; and
otherwise the node, its reference taken, is transitioned to
`WaitingForExploration` and sent.  In every other case the reply channel
is requeued after a 1ms sleep. -/
def handleFrontierRequest (frontier : Option ExpNode) (descendentCount maxNodeCount : Nat) :
    FrontierOutcome :=
  match frontier with
  | some unexploredNode =>
    if descendentCount < maxNodeCount then
      let r := incrementReference unexploredNode
      if r.1 = false then .dropped
      else if r.2.explorationStatus ≠ .Unexplored then .fatal
      else .sent (setWaitingForExploration r.2)
    else .requeued
  | none => .requeued

/-- Game capability as consumed by `Explore` (game.go): the legal moves of
a state and the state after a move; cloning is implicit in the pure
model. -/
structure GameModel (G : Type) where
  possibleMoves : G → List Nat
  makeMove : G → Nat → G

/-- The opening of `Explore` (node.go lines 326-328): enter `Exploring`
and clear the node's own frontier cache. -/
def exploreSetup (n : ExpNode) : ExpNode :=
  { n with explorationStatus := .Exploring
           mostLikelyUnexploredDescendent := none
           mostLikelyUnexploredDescendentLikelihood := 0 }

/-- A child node freshly taken from the pool and initialised by the
move loop of `Explore` (node.go lines 341-345): all other fields are the
pool defaults of `reset`. -/
def newChildNode (childId parentId move : Nat) (childHeuristic : ℚ) : ChildView :=
  { selfId := childId
    lastMove := move
    heuristic := childHeuristic
    value := childHeuristic
    explorationStatus := .Unexplored
    parentId := some parentId
    mostLikelyUnexploredDescendent := some childId
    mostLikelyUnexploredDescendentLikelihood := 1 }

/-- The move loop of `Explore` (node.go lines 335-350): one child per
legal move of the cloned game, seeded with zero likelihood and zero
explore probability.  `ids` models the pool handing out a fresh node
object per move. -/
def exploreChildStep {G : Type} (gm : GameModel G) (heuristic : G → ℚ) (ids : Nat → Nat)
    (g : G) (parentId : Nat) (acc : ExpNode) (move : Nat) : ExpNode :=
  let childHeuristic := heuristic (gm.makeMove g move)
  { acc with
      children := mapSet acc.children move (newChildNode (ids move) parentId move childHeuristic)
      childLikelihood := mapSet acc.childLikelihood move 0
      childExploreProbability := mapSet acc.childExploreProbability move 0 }

/-- The whole move loop of `Explore`: fold `exploreChildStep` over the
legal moves of the cloned game. -/
def exploreAddChildren {G : Type} (gm : GameModel G) (heuristic : G → ℚ) (ids : Nat → Nat)
    (g : G) (n : ExpNode) : ExpNode :=
  (gm.possibleMoves g).foldl (exploreChildStep gm heuristic ids g n.selfId) n

/-- The successful path of `Explore` up to and including the field
assignments of node.go lines 352-354: setup, children creation, then
`descendentCount = len(children)`, `averageDepth = 1.0`, status
`Explored`. -/
def exploreExpanded {G : Type} (gm : GameModel G) (heuristic : G → ℚ) (ids : Nat → Nat)
    (g : G) (n : ExpNode) : ExpNode :=
  let n₂ := exploreAddChildren gm heuristic ids g (exploreSetup n)
  { n₂ with descendentCount := n₂.children.length
            averageDepth := 1
            explorationStatus := .Explored }

/-- The `Explore` method (node.go lines 316-357).  `gameOpt` is the result
of `GetGame()`: `none` when a retired ancestor makes the clone fail, in
which case `Explore` returns right after clearing its cache; otherwise
the children are created and `calculateChildLikelihood` runs with
`recursive = false`. -/
def Explore {G : Type} (gm : GameModel G) (heuristic : G → ℚ) (ids : Nat → Nat)
    (clOut : List (Nat × ℚ)) (n : ExpNode) (gameOpt : Option G) : ExpNode :=
  if n.markedForDeletion then n
  else
    match gameOpt with
    | none => exploreSetup n
    | some g => calculateChildLikelihood clOut (exploreExpanded gm heuristic ids g n)

/-- One ancestor on the parent chain walked by the recursive
`calculateChildLikelihood`: the ancestor's node state, the move under
which the lower node sits in its `children` map, and the map the external
likelihood function writes at this ancestor. -/
structure AncestorFrame where
  node : ExpNode
  childMove : Nat
  clOut : List (Nat × ℚ)
  deriving DecidableEq

/-- Reading the lower node's updated value through the child pointer: the
ancestor sees the child entry at `childMove` with the new value. -/
def refreshChildValue (n : ExpNode) (move : Nat) (v : ℚ) : ExpNode :=
  { n with children :=
      n.children.map (fun p => if p.1 = move then (p.1, { p.2 with value := v }) else p) }

/-- The recursive sweep of `calculateChildLikelihood(recursive = true)`
(node.go lines 394-402), started at the first ancestor of a node whose
value has become `childValue`.  Returns the final states of all frames:
at each ancestor the maps and value are recomputed; the parent is
invoked exactly when the new value differs from the stored one and a
parent exists, and otherwise the remaining ancestors keep their stored
states. -/
def propagateUp (childValue : ℚ) : List AncestorFrame → List ExpNode
  | [] => []
  | f :: rest =>
    let n₀ := refreshChildValue f.node f.childMove childValue
    let n₁ := calculateChildLikelihood f.clOut n₀
    if n₁.value ≠ n₀.value ∧ rest ≠ [] then n₁ :: propagateUp n₁.value rest
    else n₁ :: rest.map (fun fr => fr.node)

/-!
Concrete states used to evaluate the definitions on closed inputs.
-/

/-- A node fresh from the pool, as `NewBaseNode` returns it. -/
def freshNode : ExpNode :=
  { selfId := 0
    explorationStatus := .Unexplored
    heuristic := 0
    value := 0
    children := []
    childLikelihood := []
    childExploreProbability := []
    mostLikelyUnexploredDescendent := some 0
    mostLikelyUnexploredDescendentLikelihood := 1
    descendentCount := 0
    averageDepth := 0
    referenceCount := 0
    markedForDeletion := false }

/-- A node a worker currently holds: handed out, reference taken, in the
middle of `Explore`. -/
def nodeInFlight : ExpNode :=
  { freshNode with explorationStatus := .Exploring
                   mostLikelyUnexploredDescendent := none
                   mostLikelyUnexploredDescendentLikelihood := 0
                   referenceCount := 1 }

/-- A retired node: marked for deletion with one outstanding reference. -/
def retiredNode : ExpNode :=
  { freshNode with markedForDeletion := true, referenceCount := 1 }

/-- An unexplored child entry. -/
def childA : ChildView :=
  { selfId := 1
    lastMove := 0
    heuristic := 2
    value := 2
    explorationStatus := .Unexplored
    parentId := some 0
    mostLikelyUnexploredDescendent := some 1
    mostLikelyUnexploredDescendentLikelihood := 1 }

/-- An archived child entry with a cached frontier descendent. -/
def childB : ChildView :=
  { selfId := 2
    lastMove := 1
    heuristic := 4
    value := 4
    explorationStatus := .Archived
    parentId := some 0
    mostLikelyUnexploredDescendent := some 5
    mostLikelyUnexploredDescendentLikelihood := 1 / 2 }

/-- An explored node with the two children above and freshly seeded
probability maps. -/
def parentNode : ExpNode :=
  { freshNode with explorationStatus := .Explored
                   children := [(0, childA), (1, childB)]
                   childLikelihood := [(0, 0), (1, 0)]
                   childExploreProbability := [(0, 0), (1, 0)]
                   descendentCount := 2
                   averageDepth := 1
                   referenceCount := 1 }

/-- A likelihood map over the two children, as an external likelihood
function would write it. -/
def clSample : List (Nat × ℚ) := [(0, 1 / 2), (1, 1 / 2)]

/-- A one-move game over a unit state space. -/
def unitGame : GameModel Unit :=
  { possibleMoves := fun _ => [0, 1]
    makeMove := fun _ _ => () }

/-- A constant heuristic on the unit game. -/
def unitHeuristic : Unit → ℚ := fun _ => 3

/-- A second ancestor used to exercise the propagation sweep. -/
def grandFrame : AncestorFrame :=
  { node := { freshNode with explorationStatus := .Archived
                             children := [(5, { childA with value := 0 })]
                             childLikelihood := [(5, 1)]
                             childExploreProbability := [(5, 1)]
                             value := 0
                             referenceCount := 1 }
    childMove := 5
    clOut := [(5, 1)] }

/-- The first ancestor used to exercise the propagation sweep. -/
def parentFrame : AncestorFrame :=
  { node := parentNode, childMove := 0, clOut := clSample }

/-!
Lemmas about the modelled Go maps.
-/

theorem keysOf_cons {α : Type} (k : Nat) (v : α) (rest : List (Nat × α)) :
    keysOf ((k, v) :: rest) = k :: keysOf rest := rfl

theorem mapLookup_not_mem {α : Type} (l : List (Nat × α)) (k : Nat) (h : k ∉ keysOf l) :
    mapLookup l k = none := by
  induction l with
  | nil => rfl
  | cons p rest ih =>
    obtain ⟨k₁, v₁⟩ := p
    simp only [keysOf, List.map_cons, List.mem_cons, not_or] at h
    have hne : k₁ ≠ k := fun hh => h.1 hh.symm
    simpa [mapLookup, hne] using ih (by simpa [keysOf] using h.2)

theorem mapLookup_of_mem {α : Type} (l : List (Nat × α)) (k : Nat) (v : α)
    (hnd : (keysOf l).Nodup) (hm : (k, v) ∈ l) : mapLookup l k = some v := by
  induction l with
  | nil => cases hm
  | cons p rest ih =>
    obtain ⟨k₁, v₁⟩ := p
    rcases List.mem_cons.mp hm with he | hr
    · cases he
      simp [mapLookup]
    · have hk : k ∈ keysOf rest := by
        simpa [keysOf] using List.mem_map_of_mem Prod.fst hr
      rw [keysOf_cons] at hnd
      have hcons := List.nodup_cons.mp hnd
      have hne : k₁ ≠ k := fun hh => hcons.1 (hh ▸ hk)
      simpa [mapLookup, hne] using ih hcons.2 hr

theorem lookupD_eq_mapLookup (l : List (Nat × ℚ)) (k : Nat) :
    lookupD l k = (mapLookup l k).getD 0 := by
  induction l with
  | nil => rfl
  | cons p rest ih =>
    obtain ⟨k₁, v₁⟩ := p
    by_cases h : k₁ = k <;> simp [lookupD, mapLookup, h, ih]

theorem lookupD_of_mem (l : List (Nat × ℚ)) (k : Nat) (v : ℚ)
    (hnd : (keysOf l).Nodup) (hm : (k, v) ∈ l) : lookupD l k = v := by
  rw [lookupD_eq_mapLookup, mapLookup_of_mem l k v hnd hm]
  rfl

theorem mapSet_cons_ne {α : Type} (k₁ k : Nat) (v₁ v : α) (rest : List (Nat × α))
    (h : k₁ ≠ k) : mapSet ((k₁, v₁) :: rest) k v = (k₁, v₁) :: mapSet rest k v := by
  simp [mapSet, h]

theorem mapSet_fresh {α : Type} (l : List (Nat × α)) (k : Nat) (v : α) (h : k ∉ keysOf l) :
    mapSet l k v = l ++ [(k, v)] := by
  induction l with
  | nil => rfl
  | cons p rest ih =>
    obtain ⟨k₁, v₁⟩ := p
    simp only [keysOf, List.map_cons, List.mem_cons, not_or] at h
    have hne : k₁ ≠ k := fun hh => h.1 hh.symm
    simp [mapSet, hne, ih (by simpa [keysOf] using h.2)]

/-!
Lemmas about the explore-probability loop.
-/

theorem updAux_cons (K : ℚ) (cep : List (Nat × ℚ)) (p : Nat × ℚ) (rest : List (Nat × ℚ)) :
    updateExploreProbabilityAux K cep (p :: rest) =
      updateExploreProbabilityAux K (mapSet cep p.1 (1 / 10 / K + 9 / 10 * p.2)) rest := rfl

theorem updAux_skip_head (K : ℚ) (m : Nat) (w : ℚ) (cep entries : List (Nat × ℚ))
    (h : m ∉ keysOf entries) :
    updateExploreProbabilityAux K ((m, w) :: cep) entries =
      (m, w) :: updateExploreProbabilityAux K cep entries := by
  induction entries generalizing cep with
  | nil => rfl
  | cons p rest ih =>
    obtain ⟨k, lh⟩ := p
    rw [keysOf_cons] at h
    simp only [List.mem_cons, not_or] at h
    rw [updAux_cons, updAux_cons]
    rw [mapSet_cons_ne m k w _ cep h.1]
    exact ih _ h.2

theorem updAux_eq_map (K : ℚ) (cep cl : List (Nat × ℚ))
    (hkeys : keysOf cep = keysOf cl) (hnd : (keysOf cl).Nodup) :
    updateExploreProbabilityAux K cep cl =
      cl.map (fun p => (p.1, 1 / 10 / K + 9 / 10 * p.2)) := by
  induction cl generalizing cep with
  | nil =>
    cases cep with
    | nil => rfl
    | cons q t => simp [keysOf] at hkeys
  | cons p rest ih =>
    obtain ⟨m, lh⟩ := p
    cases cep with
    | nil => simp [keysOf] at hkeys
    | cons q t =>
      obtain ⟨mq, wq⟩ := q
      rw [keysOf_cons, keysOf_cons] at hkeys
      injection hkeys with hmq ht
      subst hmq
      rw [keysOf_cons] at hnd
      have hcons := List.nodup_cons.mp hnd
      rw [updAux_cons]
      have hset : mapSet ((mq, wq) :: t) (mq, lh).1 (1 / 10 / K + 9 / 10 * (mq, lh).2) =
          (mq, 1 / 10 / K + 9 / 10 * lh) :: t := by
        simp [mapSet]
      rw [hset]
      rw [updAux_skip_head K mq _ t rest hcons.1]
      rw [ih t ht hcons.2]
      rfl

theorem updateExploreProbability_eq_map (cep cl : List (Nat × ℚ))
    (hkeys : keysOf cep = keysOf cl) (hnd : (keysOf cl).Nodup) :
    updateExploreProbability cep cl =
      cl.map (fun p => (p.1, 1 / 10 / (cl.length : ℚ) + 9 / 10 * p.2)) :=
  updAux_eq_map _ cep cl hkeys hnd

theorem sum_map_affine (c r : ℚ) (l : List (Nat × ℚ)) :
    (l.map (fun p => c + r * p.2)).sum = (l.length : ℚ) * c + r * (l.map Prod.snd).sum := by
  induction l with
  | nil => simp
  | cons p rest ih =>
    simp only [List.map_cons, List.sum_cons, List.length_cons, ih]
    push_cast
    ring

/-!
Field-preservation lemmas.
-/

theorem updateMLUD_preserves (n : ExpNode) :
    (updateMostLikelyUnexploredDescendent n).value = n.value ∧
    (updateMostLikelyUnexploredDescendent n).children = n.children ∧
    (updateMostLikelyUnexploredDescendent n).childLikelihood = n.childLikelihood ∧
    (updateMostLikelyUnexploredDescendent n).childExploreProbability =
      n.childExploreProbability ∧
    (updateMostLikelyUnexploredDescendent n).heuristic = n.heuristic ∧
    (updateMostLikelyUnexploredDescendent n).explorationStatus = n.explorationStatus ∧
    (updateMostLikelyUnexploredDescendent n).referenceCount = n.referenceCount ∧
    (updateMostLikelyUnexploredDescendent n).markedForDeletion = n.markedForDeletion := by
  unfold updateMostLikelyUnexploredDescendent
  split <;> simp

/-!
Claim theorems.
-/

/-- C6: `incrementReference` fails exactly when `markedForDeletion` is
already set, and otherwise increments the count and succeeds;
`decrementReference` decrements the count, and resets the node and
returns it to the pool exactly when the count reaches zero with
`markedForDeletion` set. -/
theorem referenceCounting_spec (n : ExpNode) :
    ((incrementReference n).1 = false ↔ n.markedForDeletion = true) ∧
    (n.markedForDeletion = false →
      incrementReference n = (true, { n with referenceCount := n.referenceCount + 1 })) ∧
    ((decrementReference n).2 = true ↔
      n.referenceCount - 1 = 0 ∧ n.markedForDeletion = true) ∧
    ((decrementReference n).2 = true → (decrementReference n).1 = resetNode n) ∧
    ((decrementReference n).2 = false →
      (decrementReference n).1 = { n with referenceCount := n.referenceCount - 1 }) := by
  refine ⟨?_, ?_, ?_, ?_, ?_⟩
  · cases hb : n.markedForDeletion <;> simp [incrementReference, hb]
  · intro h
    simp [incrementReference, h]
  · by_cases h : n.referenceCount - 1 = 0 ∧ n.markedForDeletion = true <;>
      simp [decrementReference, h]
  · intro h
    by_cases hc : n.referenceCount - 1 = 0 ∧ n.markedForDeletion = true
    · simp [decrementReference, hc]
    · simp [decrementReference, hc] at h
  · intro h
    by_cases hc : n.referenceCount - 1 = 0 ∧ n.markedForDeletion = true
    · simp [decrementReference, hc] at h
    · simp [decrementReference, hc]

/-- C6 witness: the operations evaluated on a retired node holding one
outstanding reference. -/
theorem referenceCounting_witness :
    (incrementReference retiredNode).1 = false ∧
    (decrementReference retiredNode).2 = true ∧
    (decrementReference retiredNode).1 = resetNode retiredNode :=
  ⟨(referenceCounting_spec retiredNode).1.mpr rfl,
   (referenceCounting_spec retiredNode).2.2.1.mpr ⟨by decide, rfl⟩,
   (referenceCounting_spec retiredNode).2.2.2.1
     ((referenceCounting_spec retiredNode).2.2.1.mpr ⟨by decide, rfl⟩)⟩

/-- C9: the `getChildValue` accessor handed to the external
child-likelihood function returns 0.0 for a move that is not a key of
the children map, and the child's value for a move that is. -/
theorem getChildValue_spec (children : List (Nat × ChildView)) (m : Nat) :
    (m ∉ keysOf children → getChildValue children m = 0) ∧
    ((keysOf children).Nodup →
      ∀ c, (m, c) ∈ children → getChildValue children m = c.value) := by
  constructor
  · intro h
    simp [getChildValue, mapLookup_not_mem children m h]
  · intro hnd c hm
    simp [getChildValue, mapLookup_of_mem children m c hnd hm]

/-- C9 witness: a missing move reads as zero and a present move reads as
the child's value on a concrete explored node. -/
theorem getChildValue_witness :
    getChildValue parentNode.children 7 = 0 ∧
    getChildValue parentNode.children 1 = childB.value :=
  ⟨(getChildValue_spec parentNode.children 7).1 (by decide),
   (getChildValue_spec parentNode.children 1).2 (by decide) childB (by simp [parentNode])⟩

/-- C5 counterexample: a node handed back while still `Exploring` (as
happens when `Explore` aborts on a retired ancestor) is archived by
`processExploredNode` and the coordinator's explored-node arm raises no
fatal error, contradicting the claim that a non-`Explored` hand-back is
a fatal contract violation and that only `Explored → Archived` occurs. -/
theorem processExploredNode_archives_nonExplored :
    nodeInFlight.explorationStatus = .Exploring ∧
    nodeInFlight.explorationStatus ≠ .Explored ∧
    (processExploredNode nodeInFlight).explorationStatus = .Archived ∧
    (handleExploredNode nodeInFlight).2 = false := by
  refine ⟨rfl, by decide, ?_, rfl⟩
  decide

/-- C5 (amended): `processExploredNode` archives the handed-back node
whatever its prior status (provided the node is not marked for deletion,
in which case it does nothing), and the coordinator's explored-node arm
performs no status check and never terminates the process; the engine's
only fatal status check sits on the hand-out path, where a frontier node
that is not `Unexplored` is fatal. -/
theorem processExploredNode_spec (n : ExpNode) :
    (n.markedForDeletion = false →
      (processExploredNode n).explorationStatus = .Archived ∧
      (handleExploredNode n).2 = false ∧
      (handleExploredNode n).1.explorationStatus = .Archived ∧
      (handleExploredNode n).1.referenceCount = n.referenceCount - 1) ∧
    (n.markedForDeletion = true → processExploredNode n = n) := by
  constructor
  · intro h
    have harch : processExploredNode n = { n with explorationStatus := .Archived } := by
      simp [processExploredNode, h]
    refine ⟨by simp [harch], rfl, ?_, ?_⟩ <;>
      simp [handleExploredNode, harch, decrementReference, h]
  · intro h
    simp [processExploredNode, h]

/-- C5 witness: the amended behaviour evaluated on the in-flight node. -/
theorem processExploredNode_witness :
    (processExploredNode nodeInFlight).explorationStatus = .Archived ∧
    (handleExploredNode nodeInFlight).2 = false :=
  ⟨((processExploredNode_spec nodeInFlight).1 rfl).1,
   ((processExploredNode_spec nodeInFlight).1 rfl).2.1⟩

/-- C10: when `GetGame` yields no clone, `Explore` returns right after
entering `Exploring` and clearing its own frontier cache: the children
map, both probability maps, `descendentCount` and `value` are untouched
and the status is neither restored to `WaitingForExploration` nor
advanced to `Explored`. -/
theorem explore_abort_spec {G : Type} (gm : GameModel G) (heuristic : G → ℚ)
    (ids : Nat → Nat) (clOut : List (Nat × ℚ)) (n : ExpNode)
    (hm : n.markedForDeletion = false) :
    (Explore gm heuristic ids clOut n none).children = n.children ∧
    (Explore gm heuristic ids clOut n none).childLikelihood = n.childLikelihood ∧
    (Explore gm heuristic ids clOut n none).childExploreProbability =
      n.childExploreProbability ∧
    (Explore gm heuristic ids clOut n none).descendentCount = n.descendentCount ∧
    (Explore gm heuristic ids clOut n none).value = n.value ∧
    (Explore gm heuristic ids clOut n none).explorationStatus = .Exploring ∧
    (Explore gm heuristic ids clOut n none).mostLikelyUnexploredDescendent = none ∧
    (Explore gm heuristic ids clOut n none).mostLikelyUnexploredDescendentLikelihood = 0 := by
  simp [Explore, hm, exploreSetup]

/-- C10 witness: the abort path evaluated on a fresh node of the unit
game. -/
theorem explore_abort_witness :
    (Explore unitGame unitHeuristic (fun m => m + 10) [] freshNode none).explorationStatus =
      .Exploring ∧
    (Explore unitGame unitHeuristic (fun m => m + 10) [] freshNode none).children =
      freshNode.children :=
  ⟨(explore_abort_spec unitGame unitHeuristic (fun m => m + 10) [] freshNode rfl).2.2.2.2.2.1,
   (explore_abort_spec unitGame unitHeuristic (fun m => m + 10) [] freshNode rfl).1⟩

/-- C8 counterexample: with frontier available and budget not reached, a
failed reference increment on the retired frontier node makes the
coordinator `continue`, discarding the worker's reply channel instead of
requeueing it. -/
theorem handleFrontierRequest_drops_retired :
    handleFrontierRequest (some retiredNode) 0 10 = .dropped ∧
    (FrontierOutcome.dropped ≠ FrontierOutcome.requeued) := by
  constructor
  · decide
  · decide

/-- C8 (amended): on a frontier request, when the root has a frontier
descendent and the budget is not reached, the coordinator increments the
node's reference, transitions it to `WaitingForExploration` and sends it
— unless the increment fails on a retired node, in which case the
worker's reply channel is dropped (not requeued), or the node is not
`Unexplored`, which is fatal; only the no-frontier and budget-reached
cases requeue the reply channel. -/
theorem handleFrontierRequest_spec (frontier : Option ExpNode) (d mx : Nat) :
    (frontier = none → handleFrontierRequest frontier d mx = .requeued) ∧
    (∀ u, frontier = some u → ¬ d < mx →
      handleFrontierRequest frontier d mx = .requeued) ∧
    (∀ u, frontier = some u → d < mx → u.markedForDeletion = true →
      handleFrontierRequest frontier d mx = .dropped) ∧
    (∀ u, frontier = some u → d < mx → u.markedForDeletion = false →
      u.explorationStatus ≠ .Unexplored →
      handleFrontierRequest frontier d mx = .fatal) ∧
    (∀ u, frontier = some u → d < mx → u.markedForDeletion = false →
      u.explorationStatus = .Unexplored →
      handleFrontierRequest frontier d mx =
        .sent (setWaitingForExploration { u with referenceCount := u.referenceCount + 1 }) ∧
      (setWaitingForExploration
          { u with referenceCount := u.referenceCount + 1 }).explorationStatus =
        .WaitingForExploration ∧
      (setWaitingForExploration
          { u with referenceCount := u.referenceCount + 1 }).referenceCount =
        u.referenceCount + 1) := by
  refine ⟨?_, ?_, ?_, ?_, ?_⟩
  · rintro rfl
    rfl
  · rintro u rfl hd
    simp [handleFrontierRequest, hd]
  · rintro u rfl hd hmk
    simp [handleFrontierRequest, hd, incrementReference, hmk]
  · rintro u rfl hd hmk hst
    simp [handleFrontierRequest, hd, incrementReference, hmk, hst]
  · rintro u rfl hd hmk hst
    have hw : setWaitingForExploration { u with referenceCount := u.referenceCount + 1 } =
        updateMostLikelyUnexploredDescendent
          { u with referenceCount := u.referenceCount + 1
                   explorationStatus := .WaitingForExploration } := by
      simp [setWaitingForExploration, hmk]
    refine ⟨?_, ?_, ?_⟩
    · simp [handleFrontierRequest, hd, incrementReference, hmk, hst]
    · rw [hw]
      simpa using (updateMLUD_preserves
        { u with referenceCount := u.referenceCount + 1
                 explorationStatus := .WaitingForExploration }).2.2.2.2.2.1
    · rw [hw]
      simpa using (updateMLUD_preserves
        { u with referenceCount := u.referenceCount + 1
                 explorationStatus := .WaitingForExploration }).2.2.2.2.2.2.1

/-!
Lemmas about the frontier-cache children scan.
-/

theorem mludStep_le (cep : List (Nat × ℚ)) (best : Option Nat × ℚ) (p : Nat × ChildView) :
    best.2 ≤ (mludStep cep best p).2 := by
  by_cases he : childEligible p.2 = true
  · by_cases hlt :
        best.2 < p.2.mostLikelyUnexploredDescendentLikelihood * lookupD cep p.1
    · simp only [mludStep, he, if_true, hlt, if_pos]
      exact le_of_lt hlt
    · simp [mludStep, he, hlt]
  · simp [mludStep, he]

theorem mludFold_le (cep : List (Nat × ℚ)) (l : List (Nat × ChildView))
    (best : Option Nat × ℚ) : best.2 ≤ (l.foldl (mludStep cep) best).2 := by
  induction l generalizing best with
  | nil => exact le_refl _
  | cons q rest ih =>
    rw [List.foldl_cons]
    exact le_trans (mludStep_le cep best q) (ih (mludStep cep best q))

theorem mludFold_ge_of_mem (cep : List (Nat × ℚ)) (l : List (Nat × ChildView))
    (best : Option Nat × ℚ) (p : Nat × ChildView) (hp : p ∈ l)
    (he : childEligible p.2 = true) :
    p.2.mostLikelyUnexploredDescendentLikelihood * lookupD cep p.1 ≤
      (l.foldl (mludStep cep) best).2 := by
  induction l generalizing best with
  | nil => cases hp
  | cons q rest ih =>
    rw [List.foldl_cons]
    rcases List.mem_cons.mp hp with hq | hr
    · subst hq
      have hstep : p.2.mostLikelyUnexploredDescendentLikelihood * lookupD cep p.1 ≤
          (mludStep cep best p).2 := by
        by_cases hlt :
            best.2 < p.2.mostLikelyUnexploredDescendentLikelihood * lookupD cep p.1
        · simp [mludStep, he, hlt]
        · simp only [mludStep, he, if_true, hlt, if_neg, if_false]
          exact le_of_not_lt hlt
      exact le_trans hstep (mludFold_le cep rest (mludStep cep best p))
    · exact ih (mludStep cep best q) hr

theorem mludStep_cases (cep : List (Nat × ℚ)) (best : Option Nat × ℚ)
    (p : Nat × ChildView) :
    mludStep cep best p = best ∨
      (childEligible p.2 = true ∧
        mludStep cep best p =
          (p.2.mostLikelyUnexploredDescendent,
            p.2.mostLikelyUnexploredDescendentLikelihood * lookupD cep p.1)) := by
  by_cases he : childEligible p.2 = true
  · by_cases hlt :
        best.2 < p.2.mostLikelyUnexploredDescendentLikelihood * lookupD cep p.1
    · right
      exact ⟨he, by simp [mludStep, he, hlt]⟩
    · left
      simp [mludStep, he, hlt]
  · left
    simp [mludStep, he]

theorem mludFold_cases (cep : List (Nat × ℚ)) (l : List (Nat × ChildView))
    (best : Option Nat × ℚ) :
    l.foldl (mludStep cep) best = best ∨
      ∃ p, p ∈ l ∧ childEligible p.2 = true ∧
        l.foldl (mludStep cep) best =
          (p.2.mostLikelyUnexploredDescendent,
            p.2.mostLikelyUnexploredDescendentLikelihood * lookupD cep p.1) := by
  induction l generalizing best with
  | nil =>
    left
    rfl
  | cons q rest ih =>
    rw [List.foldl_cons]
    rcases ih (mludStep cep best q) with h | ⟨p, hp, he, heq⟩
    · rw [h]
      rcases mludStep_cases cep best q with h2 | ⟨he, heq⟩
      · left
        exact h2
      · right
        exact ⟨q, List.mem_cons_self q rest, he, heq⟩
    · right
      exact ⟨p, List.mem_cons_of_mem q hp, he, heq⟩

/-- C8 witness: the send path evaluated on a fresh unexplored frontier
node under budget. -/
theorem handleFrontierRequest_witness :
    handleFrontierRequest (some freshNode) 0 10 =
      .sent (setWaitingForExploration
        { freshNode with referenceCount := freshNode.referenceCount + 1 }) ∧
    (setWaitingForExploration
        { freshNode with referenceCount := freshNode.referenceCount + 1 }).explorationStatus =
      .WaitingForExploration :=
  ⟨(((handleFrontierRequest_spec (some freshNode) 0 10).2.2.2.2 freshNode rfl
      (by decide) rfl rfl)).1,
   (((handleFrontierRequest_spec (some freshNode) 0 10).2.2.2.2 freshNode rfl
      (by decide) rfl rfl)).2.1⟩

/-- C3: `updateMostLikelyUnexploredDescendent` caches (self, 1.0) on an
`Unexplored` node; (none, 0.0) on a `WaitingForExploration` or
`Exploring` node; and on an `Explored` or `Archived` node the maximum
over eligible children (cache non-empty and status `Unexplored` or
`Archived`) of the child's cached likelihood times its explore
probability, where the strict less-than comparison keeps the incumbent
on an equal-likelihood candidate. -/
theorem updateMostLikelyUnexploredDescendent_spec (n : ExpNode)
    (hm : n.markedForDeletion = false) :
    (n.explorationStatus = .Unexplored →
      (updateMostLikelyUnexploredDescendent n).mostLikelyUnexploredDescendent =
        some n.selfId ∧
      (updateMostLikelyUnexploredDescendent n).mostLikelyUnexploredDescendentLikelihood =
        1) ∧
    (n.explorationStatus = .WaitingForExploration ∨ n.explorationStatus = .Exploring →
      (updateMostLikelyUnexploredDescendent n).mostLikelyUnexploredDescendent = none ∧
      (updateMostLikelyUnexploredDescendent n).mostLikelyUnexploredDescendentLikelihood =
        0) ∧
    (n.explorationStatus = .Explored ∨ n.explorationStatus = .Archived →
      (∀ p ∈ n.children, childEligible p.2 = true →
        p.2.mostLikelyUnexploredDescendentLikelihood *
            lookupD n.childExploreProbability p.1 ≤
          (updateMostLikelyUnexploredDescendent n).mostLikelyUnexploredDescendentLikelihood) ∧
      (((updateMostLikelyUnexploredDescendent n).mostLikelyUnexploredDescendent = none ∧
          (updateMostLikelyUnexploredDescendent
            n).mostLikelyUnexploredDescendentLikelihood = 0) ∨
        ∃ p, p ∈ n.children ∧ childEligible p.2 = true ∧
          (updateMostLikelyUnexploredDescendent n).mostLikelyUnexploredDescendent =
            p.2.mostLikelyUnexploredDescendent ∧
          (updateMostLikelyUnexploredDescendent n).mostLikelyUnexploredDescendentLikelihood =
            p.2.mostLikelyUnexploredDescendentLikelihood *
              lookupD n.childExploreProbability p.1)) ∧
    (∀ (best : Option Nat × ℚ) (p : Nat × ChildView), childEligible p.2 = true →
      p.2.mostLikelyUnexploredDescendentLikelihood *
          lookupD n.childExploreProbability p.1 = best.2 →
      mludStep n.childExploreProbability best p = best) := by
  have hu : updateMostLikelyUnexploredDescendent n =
      { n with
          mostLikelyUnexploredDescendent := (computeMostLikelyUnexploredDescendent n).1
          mostLikelyUnexploredDescendentLikelihood :=
            (computeMostLikelyUnexploredDescendent n).2 } := by
    simp [updateMostLikelyUnexploredDescendent, hm]
  refine ⟨?_, ?_, ?_, ?_⟩
  · intro hs
    rw [hu]
    simp [computeMostLikelyUnexploredDescendent, hs]
  · rintro (hs | hs) <;>
      (rw [hu]; simp [computeMostLikelyUnexploredDescendent, hs])
  · intro hs
    have hc : computeMostLikelyUnexploredDescendent n =
        n.children.foldl (mludStep n.childExploreProbability) (none, 0) := by
      rcases hs with hs | hs <;> simp [computeMostLikelyUnexploredDescendent, hs]
    have h1 : (updateMostLikelyUnexploredDescendent n).mostLikelyUnexploredDescendent =
        (n.children.foldl (mludStep n.childExploreProbability) (none, 0)).1 := by
      rw [hu]
      simp [hc]
    have h2 :
        (updateMostLikelyUnexploredDescendent n).mostLikelyUnexploredDescendentLikelihood =
        (n.children.foldl (mludStep n.childExploreProbability) (none, 0)).2 := by
      rw [hu]
      simp [hc]
    constructor
    · intro p hp he
      rw [h2]
      exact mludFold_ge_of_mem n.childExploreProbability n.children (none, 0) p hp he
    · rcases mludFold_cases n.childExploreProbability n.children (none, 0) with h | ⟨p, hp, he, heq⟩
      · left
        rw [h1, h2, h]
        exact ⟨rfl, rfl⟩
      · right
        exact ⟨p, hp, he, by rw [h1, heq], by rw [h2, heq]⟩
  · intro best p he heq
    by_cases hlt : best.2 <
        p.2.mostLikelyUnexploredDescendentLikelihood * lookupD n.childExploreProbability p.1
    · rw [heq] at hlt
      exact absurd hlt (lt_irrefl _)
    · simp [mludStep, he, hlt]

/-- C3 witness: on the concrete explored node, the eligible archived
child's path product is bounded by the refreshed cache likelihood. -/
theorem updateMostLikelyUnexploredDescendent_witness :
    childB.mostLikelyUnexploredDescendentLikelihood *
        lookupD parentNode.childExploreProbability 1 ≤
      (updateMostLikelyUnexploredDescendent
        parentNode).mostLikelyUnexploredDescendentLikelihood :=
  ((updateMostLikelyUnexploredDescendent_spec parentNode rfl).2.2.1 (Or.inl rfl)).1
    (1, childB) (by simp [parentNode]) rfl

/-- C1: after `calculateChildLikelihood` completes on a node with at
least one `Explored`/`Archived` child, the node's value equals
Σ childLikelihood[m] * child.value over its children; on a node with no
children, its value equals its heuristic. -/
theorem calculateChildLikelihood_value (clOut : List (Nat × ℚ)) (n : ExpNode)
    (hm : n.markedForDeletion = false) :
    ((∃ p, p ∈ n.children ∧
        (p.2.explorationStatus = .Explored ∨ p.2.explorationStatus = .Archived)) →
      (calculateChildLikelihood clOut n).value =
        ((calculateChildLikelihood clOut n).children.map
          (fun p =>
            lookupD (calculateChildLikelihood clOut n).childLikelihood p.1 *
              p.2.value)).sum) ∧
    (n.children = [] →
      (calculateChildLikelihood clOut n).value =
        (calculateChildLikelihood clOut n).heuristic) := by
  have hcalc : calculateChildLikelihood clOut n =
      updateMostLikelyUnexploredDescendent (calculateChildLikelihoodCore clOut n) := by
    simp [calculateChildLikelihood, hm]
  have hpres := updateMLUD_preserves (calculateChildLikelihoodCore clOut n)
  have hval : (calculateChildLikelihood clOut n).value =
      calcValue n.heuristic n.children clOut := by
    rw [hcalc, hpres.1]
    rfl
  have hch : (calculateChildLikelihood clOut n).children = n.children := by
    rw [hcalc, hpres.2.1]
    rfl
  have hcl : (calculateChildLikelihood clOut n).childLikelihood = clOut := by
    rw [hcalc, hpres.2.2.1]
    rfl
  have hheu : (calculateChildLikelihood clOut n).heuristic = n.heuristic := by
    rw [hcalc, hpres.2.2.2.2.1]
    rfl
  constructor
  · rintro ⟨p, hp, -⟩
    have hne : n.children ≠ [] := List.ne_nil_of_mem hp
    rw [hval, hch, hcl, calcValue, if_neg hne]
  · intro hnil
    rw [hval, hheu, calcValue, if_pos hnil]

/-- C1 witness: the value equation evaluated on the concrete explored
node with an archived child. -/
theorem calculateChildLikelihood_value_witness :
    (calculateChildLikelihood clSample parentNode).value =
      ((calculateChildLikelihood clSample parentNode).children.map
        (fun p =>
          lookupD (calculateChildLikelihood clSample parentNode).childLikelihood p.1 *
            p.2.value)).sum :=
  (calculateChildLikelihood_value clSample parentNode rfl).1
    ⟨(1, childB), by simp [parentNode], Or.inr rfl⟩

/-- C2: `calculateChildLikelihood` on a node with K children sets each
childExploreProbability[m] to 0.1/K + 0.9 * childLikelihood[m]; when
the likelihoods are non-negative and sum to 1, the explore probabilities
sum to 1 and each is at least 0.1/K. -/
theorem calculateChildLikelihood_exploreProbability (clOut : List (Nat × ℚ)) (n : ExpNode)
    (hm : n.markedForDeletion = false)
    (hkeys : keysOf n.childExploreProbability = keysOf clOut)
    (hkc : n.children.length = clOut.length)
    (hnd : (keysOf clOut).Nodup) :
    (∀ p ∈ clOut,
      lookupD (calculateChildLikelihood clOut n).childExploreProbability p.1 =
        1 / 10 / (n.children.length : ℚ) + 9 / 10 * p.2) ∧
    (1 ≤ clOut.length → (∀ p ∈ clOut, 0 ≤ p.2) → (clOut.map Prod.snd).sum = 1 →
      ((calculateChildLikelihood clOut n).childExploreProbability.map Prod.snd).sum = 1 ∧
      ∀ p ∈ (calculateChildLikelihood clOut n).childExploreProbability,
        1 / 10 / (n.children.length : ℚ) ≤ p.2) := by
  have hcalc : calculateChildLikelihood clOut n =
      updateMostLikelyUnexploredDescendent (calculateChildLikelihoodCore clOut n) := by
    simp [calculateChildLikelihood, hm]
  have hpres := updateMLUD_preserves (calculateChildLikelihoodCore clOut n)
  have hcep : (calculateChildLikelihood clOut n).childExploreProbability =
      clOut.map (fun p => (p.1, 1 / 10 / (clOut.length : ℚ) + 9 / 10 * p.2)) := by
    rw [hcalc, hpres.2.2.2.1]
    show updateExploreProbability n.childExploreProbability clOut = _
    exact updateExploreProbability_eq_map n.childExploreProbability clOut hkeys hnd
  have hkeysmap : keysOf (clOut.map
      (fun p => (p.1, 1 / 10 / (clOut.length : ℚ) + 9 / 10 * p.2))) = keysOf clOut := by
    induction clOut with
    | nil => rfl
    | cons p rest ih => simp [keysOf]
  rw [hkc]
  constructor
  · intro p hp
    rw [hcep]
    exact lookupD_of_mem _ p.1 _ (hkeysmap ▸ hnd)
      (List.mem_map_of_mem (fun q => (q.1, 1 / 10 / (clOut.length : ℚ) + 9 / 10 * q.2)) hp)
  · intro hK hnn hsum
    have hlen : (clOut.length : ℚ) ≠ 0 := by
      have : 0 < clOut.length := hK
      positivity
    constructor
    · rw [hcep]
      have hmm : (clOut.map
          (fun p => (p.1, 1 / 10 / (clOut.length : ℚ) + 9 / 10 * p.2))).map Prod.snd =
          clOut.map (fun p => 1 / 10 / (clOut.length : ℚ) + 9 / 10 * p.2) := by
        rw [List.map_map]
        rfl
      rw [hmm, sum_map_affine, hsum]
      field_simp
      ring
    · intro p hp
      rw [hcep] at hp
      rcases List.mem_map.mp hp with ⟨q, hq, hqe⟩
      have : 0 ≤ 9 / 10 * q.2 := by
        have := hnn q hq
        positivity
      rw [← hqe]
      simpa using this

/-- C2 witness: the explore probabilities evaluated on the concrete
explored node with a uniform likelihood map. -/
theorem calculateChildLikelihood_exploreProbability_witness :
    lookupD (calculateChildLikelihood clSample parentNode).childExploreProbability 0 =
      1 / 10 / (parentNode.children.length : ℚ) + 9 / 10 * (1 / 2) ∧
    ((calculateChildLikelihood clSample parentNode).childExploreProbability.map
      Prod.snd).sum = 1 :=
  ⟨(calculateChildLikelihood_exploreProbability clSample parentNode rfl (by decide) rfl
      (by decide)).1 (0, 1 / 2) (by simp [clSample]),
   ((calculateChildLikelihood_exploreProbability clSample parentNode rfl (by decide) rfl
      (by decide)).2 (by decide)
      (by
        intro p hp
        rcases (by simpa [clSample] using hp :
            p = (0, (1 / 2 : ℚ)) ∨ p = (1, (1 / 2 : ℚ))) with rfl | rfl <;> norm_num)
      (by
        simp [clSample]
        norm_num)).1⟩

/-!
Lemmas about the child-creation loop of Explore.
-/

theorem keysOf_append {α : Type} (l₁ l₂ : List (Nat × α)) :
    keysOf (l₁ ++ l₂) = keysOf l₁ ++ keysOf l₂ := by
  simp [keysOf]

theorem exploreChildStep_eq {G : Type} (gm : GameModel G) (heuristic : G → ℚ)
    (ids : Nat → Nat) (g : G) (pid : Nat) (acc : ExpNode) (move : Nat)
    (h1 : move ∉ keysOf acc.children) (h2 : move ∉ keysOf acc.childLikelihood)
    (h3 : move ∉ keysOf acc.childExploreProbability) :
    exploreChildStep gm heuristic ids g pid acc move =
      { acc with
          children := acc.children ++
            [(move, newChildNode (ids move) pid move (heuristic (gm.makeMove g move)))]
          childLikelihood := acc.childLikelihood ++ [(move, 0)]
          childExploreProbability := acc.childExploreProbability ++ [(move, 0)] } := by
  simp [exploreChildStep, mapSet_fresh _ _ _ h1, mapSet_fresh _ _ _ h2,
    mapSet_fresh _ _ _ h3]

theorem exploreChildFold_spec {G : Type} (gm : GameModel G) (heuristic : G → ℚ)
    (ids : Nat → Nat) (g : G) (pid : Nat) :
    ∀ (moves : List Nat) (n : ExpNode), moves.Nodup →
      (∀ m ∈ moves, m ∉ keysOf n.children) →
      (∀ m ∈ moves, m ∉ keysOf n.childLikelihood) →
      (∀ m ∈ moves, m ∉ keysOf n.childExploreProbability) →
      moves.foldl (exploreChildStep gm heuristic ids g pid) n =
        { n with
            children := n.children ++ moves.map
              (fun m => (m, newChildNode (ids m) pid m (heuristic (gm.makeMove g m))))
            childLikelihood := n.childLikelihood ++ moves.map (fun m => (m, (0 : ℚ)))
            childExploreProbability :=
              n.childExploreProbability ++ moves.map (fun m => (m, (0 : ℚ))) } := by
  intro moves
  induction moves with
  | nil =>
    intro n _ _ _ _
    simp
  | cons mv rest ih =>
    intro n hnd h1 h2 h3
    have hmv := List.mem_cons_self mv rest
    have hndr := (List.nodup_cons.mp hnd).2
    have hmvr := (List.nodup_cons.mp hnd).1
    rw [List.foldl_cons]
    rw [exploreChildStep_eq gm heuristic ids g pid n mv (h1 mv hmv) (h2 mv hmv) (h3 mv hmv)]
    rw [ih _ hndr ?hc1 ?hc2 ?hc3]
    case hc1 =>
      intro m hmr
      rw [keysOf_append]
      simp only [List.mem_append, not_or]
      refine ⟨h1 m (List.mem_cons_of_mem mv hmr), ?_⟩
      simp [keysOf]
      exact fun hh => hmvr (hh ▸ hmr)
    case hc2 =>
      intro m hmr
      rw [keysOf_append]
      simp only [List.mem_append, not_or]
      refine ⟨h2 m (List.mem_cons_of_mem mv hmr), ?_⟩
      simp [keysOf]
      exact fun hh => hmvr (hh ▸ hmr)
    case hc3 =>
      intro m hmr
      rw [keysOf_append]
      simp only [List.mem_append, not_or]
      refine ⟨h3 m (List.mem_cons_of_mem mv hmr), ?_⟩
      simp [keysOf]
      exact fun hh => hmvr (hh ▸ hmr)
    simp [List.append_assoc]

/-- C4: on the successful path of `Explore`, one child per legal move of
the cloned game is created — heuristic equal to the heuristic of the
post-move game, value equal to that heuristic, lastMove the move, parent
this node, status `Unexplored`, with childLikelihood and
childExploreProbability seeded to 0 — then `descendentCount` is the
number of children, `averageDepth` is 1.0, the status becomes
`Explored`, and `calculateChildLikelihood` is invoked non-recursively on
this expanded state. -/
theorem explore_spec {G : Type} (gm : GameModel G) (heuristic : G → ℚ) (ids : Nat → Nat)
    (clOut : List (Nat × ℚ)) (n : ExpNode) (g : G)
    (hm : n.markedForDeletion = false) (hnd : (gm.possibleMoves g).Nodup)
    (hch : n.children = []) (hcl : n.childLikelihood = [])
    (hcep : n.childExploreProbability = []) :
    (exploreExpanded gm heuristic ids g n).children =
      (gm.possibleMoves g).map
        (fun m => (m, newChildNode (ids m) n.selfId m (heuristic (gm.makeMove g m)))) ∧
    (∀ m ∈ gm.possibleMoves g, ∃ c,
      (m, c) ∈ (exploreExpanded gm heuristic ids g n).children ∧
      c.heuristic = heuristic (gm.makeMove g m) ∧ c.value = c.heuristic ∧
      c.lastMove = m ∧ c.parentId = some n.selfId ∧
      c.explorationStatus = .Unexplored) ∧
    (exploreExpanded gm heuristic ids g n).childLikelihood =
      (gm.possibleMoves g).map (fun m => (m, (0 : ℚ))) ∧
    (exploreExpanded gm heuristic ids g n).childExploreProbability =
      (gm.possibleMoves g).map (fun m => (m, (0 : ℚ))) ∧
    (exploreExpanded gm heuristic ids g n).descendentCount =
      (exploreExpanded gm heuristic ids g n).children.length ∧
    (exploreExpanded gm heuristic ids g n).children.length =
      (gm.possibleMoves g).length ∧
    (exploreExpanded gm heuristic ids g n).averageDepth = 1 ∧
    (exploreExpanded gm heuristic ids g n).explorationStatus = .Explored ∧
    Explore gm heuristic ids clOut n (some g) =
      calculateChildLikelihood clOut (exploreExpanded gm heuristic ids g n) := by
  have hadd : exploreAddChildren gm heuristic ids g (exploreSetup n) =
      { exploreSetup n with
          children := (gm.possibleMoves g).map
            (fun m => (m, newChildNode (ids m) n.selfId m (heuristic (gm.makeMove g m))))
          childLikelihood := (gm.possibleMoves g).map (fun m => (m, (0 : ℚ)))
          childExploreProbability := (gm.possibleMoves g).map (fun m => (m, (0 : ℚ))) } := by
    unfold exploreAddChildren
    rw [exploreChildFold_spec gm heuristic ids g (exploreSetup n).selfId
      (gm.possibleMoves g) (exploreSetup n) hnd
      (by
        intro m hmm
        simp [exploreSetup, hch, keysOf])
      (by
        intro m hmm
        simp [exploreSetup, hcl, keysOf])
      (by
        intro m hmm
        simp [exploreSetup, hcep, keysOf])]
    simp [exploreSetup, hch, hcl, hcep]
  have hexp : exploreExpanded gm heuristic ids g n =
      { exploreSetup n with
          children := (gm.possibleMoves g).map
            (fun m => (m, newChildNode (ids m) n.selfId m (heuristic (gm.makeMove g m))))
          childLikelihood := (gm.possibleMoves g).map (fun m => (m, (0 : ℚ)))
          childExploreProbability := (gm.possibleMoves g).map (fun m => (m, (0 : ℚ)))
          descendentCount := (gm.possibleMoves g).length
          averageDepth := 1
          explorationStatus := .Explored } := by
    unfold exploreExpanded
    rw [hadd]
    simp
  refine ⟨by rw [hexp], ?_, by rw [hexp], by rw [hexp], ?_, ?_, by rw [hexp], by rw [hexp], ?_⟩
  · intro m hmm
    refine ⟨newChildNode (ids m) n.selfId m (heuristic (gm.makeMove g m)), ?_, rfl, rfl, rfl,
      rfl, rfl⟩
    rw [hexp]
    exact List.mem_map_of_mem
      (fun m => (m, newChildNode (ids m) n.selfId m (heuristic (gm.makeMove g m)))) hmm
  · rw [hexp]
    simp
  · rw [hexp]
    simp
  · simp [Explore, hm]

/-- C4 witness: `Explore` evaluated on a fresh node of the unit game with
two legal moves. -/
theorem explore_witness :
    (exploreExpanded unitGame unitHeuristic (fun m => m + 10) () freshNode).explorationStatus =
      .Explored ∧
    (exploreExpanded unitGame unitHeuristic (fun m => m + 10) () freshNode).children.length =
      (unitGame.possibleMoves ()).length ∧
    Explore unitGame unitHeuristic (fun m => m + 10) [] freshNode (some ()) =
      calculateChildLikelihood []
        (exploreExpanded unitGame unitHeuristic (fun m => m + 10) () freshNode) :=
  ⟨(explore_spec unitGame unitHeuristic (fun m => m + 10) [] freshNode () rfl (by decide)
      rfl rfl rfl).2.2.2.2.2.2.2.1,
   (explore_spec unitGame unitHeuristic (fun m => m + 10) [] freshNode () rfl (by decide)
      rfl rfl rfl).2.2.2.2.2.1,
   (explore_spec unitGame unitHeuristic (fun m => m + 10) [] freshNode () rfl (by decide)
      rfl rfl rfl).2.2.2.2.2.2.2.2⟩

/-- C7: in recursive mode, each step of the sweep recomputes the node's
value and invokes the parent's `calculateChildLikelihood` exactly when
the new value differs from the stored one and a parent exists; when the
value is unchanged, the remaining ancestors keep their stored states, so
the leaf-to-root sweep stops at the first node whose value does not
change. -/
theorem propagateUp_spec (childValue : ℚ) (f : AncestorFrame) (rest : List AncestorFrame)
    (hm : f.node.markedForDeletion = false) :
    (calcValue f.node.heuristic
        (refreshChildValue f.node f.childMove childValue).children f.clOut ≠
          f.node.value →
      rest ≠ [] →
      propagateUp childValue (f :: rest) =
        calculateChildLikelihood f.clOut (refreshChildValue f.node f.childMove childValue) ::
          propagateUp
            (calcValue f.node.heuristic
              (refreshChildValue f.node f.childMove childValue).children f.clOut)
            rest) ∧
    (calcValue f.node.heuristic
        (refreshChildValue f.node f.childMove childValue).children f.clOut =
          f.node.value →
      propagateUp childValue (f :: rest) =
        calculateChildLikelihood f.clOut (refreshChildValue f.node f.childMove childValue) ::
          rest.map (fun fr => fr.node)) ∧
    (rest = [] →
      propagateUp childValue (f :: rest) =
        [calculateChildLikelihood f.clOut
          (refreshChildValue f.node f.childMove childValue)]) := by
  have hval0 : (refreshChildValue f.node f.childMove childValue).value = f.node.value := rfl
  have hm0 : (refreshChildValue f.node f.childMove childValue).markedForDeletion = false := hm
  have hval1 :
      (calculateChildLikelihood f.clOut
        (refreshChildValue f.node f.childMove childValue)).value =
      calcValue f.node.heuristic
        (refreshChildValue f.node f.childMove childValue).children f.clOut := by
    have hcalc : calculateChildLikelihood f.clOut
        (refreshChildValue f.node f.childMove childValue) =
        updateMostLikelyUnexploredDescendent
          (calculateChildLikelihoodCore f.clOut
            (refreshChildValue f.node f.childMove childValue)) := by
      simp [calculateChildLikelihood, hm0]
    rw [hcalc, (updateMLUD_preserves _).1]
    rfl
  refine ⟨?_, ?_, ?_⟩
  · intro hne hrest
    simp only [propagateUp]
    rw [if_pos ⟨by rw [hval1, hval0]; exact hne, hrest⟩, hval1]
  · intro heq
    simp only [propagateUp]
    rw [if_neg (by
      rintro ⟨hne, -⟩
      rw [hval1, hval0] at hne
      exact hne heq)]
  · rintro rfl
    simp only [propagateUp]
    rw [if_neg (by rintro ⟨-, hne⟩; exact hne rfl)]
    simp

/-- C7 witness: the sweep evaluated on a two-frame ancestor chain where
the first ancestor's value changes. -/
theorem propagateUp_witness :
    propagateUp 10 [parentFrame, grandFrame] =
      calculateChildLikelihood parentFrame.clOut
          (refreshChildValue parentFrame.node parentFrame.childMove 10) ::
        propagateUp
          (calcValue parentFrame.node.heuristic
            (refreshChildValue parentFrame.node parentFrame.childMove 10).children
            parentFrame.clOut)
          [grandFrame] :=
  (propagateUp_spec 10 parentFrame [grandFrame] rfl).1
    (by
      norm_num [parentFrame, parentNode, clSample, calcValue, refreshChildValue,
        lookupD, childA, childB, freshNode]
      simp)
    (by simp)

end GoExpectimax
